import Mathlib

/-!
# Sistema MDU: the service layer of `firebase-service.js`

A shallow embedding of the five services of `src/firebase-service.js`
(`authService`, `enderecosService`, `gestaoService`, `statsService`,
`importExportService`) over a model of the two SDKs they call: the document
store (`addDoc`, `updateDoc`, `deleteDoc`, `getDocs`, `query`, `where`,
`orderBy`, `serverTimestamp`) and the identity provider.

An `async` operation becomes a function of the store before the call and of the
replies the SDK gives to the calls it makes; it returns the envelope the
operation resolves to and, for an operation that writes, the store afterwards.
-/

namespace Mdu

/-! ## Values and objects -/

/-- A value held by a document field or passed by a caller: `null`, a boolean,
a string, a timestamp (a server time, counted in whole seconds), or an array of
strings. Numbers, nested maps and an absent property (`undefined`, which is
`none` of `Option Value`) are not constructors. -/
inductive Value where
  | null
  | bool (b : Bool)
  | str (s : String)
  | time (t : Nat)
  | arr (xs : List String)
  deriving DecidableEq, Repr

/-- JavaScript truthiness of a value: `null`, `false` and the empty string are
falsy, every object (timestamp, array) is truthy. -/
def Value.truthy : Value → Bool
  | .null => false
  | .bool b => b
  | .str s => decide (s ≠ "")
  | .time _ => true
  | .arr _ => true

/-- Conversion of a value to a property key, as done by `table[value]`. -/
def Value.toPropertyKey : Value → String
  | .null => "null"
  | .bool true => "true"
  | .bool false => "false"
  | .str s => s
  | .time t => "Timestamp(seconds=" ++ toString t ++ ", nanoseconds=0)"
  | .arr xs => ",".intercalate xs

/-- A plain object, written as the list of its entries in the order of an
object literal: when a key is repeated the last entry is the one that counts,
so `{...a, k: v}` is `a ++ [(k, v)]`. -/
abbrev Obj := List (String × Value)

/-- The property read `o[k]`; `none` is `undefined`. -/
def prop : Obj → String → Option Value
  | [], _ => none
  | (k', v) :: rest, k =>
    match prop rest k with
    | some w => some w
    | none => if k' = k then some v else none

/-- Truthiness of the result of a property read. -/
def truthy : Option Value → Bool
  | none => false
  | some v => v.truthy

/-! ## The document store -/

/-- A stored document: its id and its fields. -/
structure Doc where
  id : String
  data : Obj
  deriving DecidableEq, Repr

/-- The three collections the services address. -/
inductive Coll where
  | users
  | enderecos
  | gestao
  deriving DecidableEq, Repr

/-- The content of the store (`db`). -/
structure Firestore where
  users : List Doc
  enderecos : List Doc
  gestao : List Doc
  deriving DecidableEq, Repr

/-- The documents of a collection. -/
def Firestore.coll (db : Firestore) : Coll → List Doc
  | .users => db.users
  | .enderecos => db.enderecos
  | .gestao => db.gestao

/-- Replace the documents of a collection. -/
def Firestore.setColl (db : Firestore) (c : Coll) (docs : List Doc) : Firestore :=
  match c with
  | .users => { db with users := docs }
  | .enderecos => { db with enderecos := docs }
  | .gestao => { db with gestao := docs }

/-- What the backend does with one SDK call: `fault = some m` makes the call
throw an error whose message is `m`; otherwise the call goes through, `autoId`
is the id generated for a document created by `addDoc` and `now` is the server
time written in place of `serverTimestamp()`. -/
structure Reply where
  fault : Option String
  autoId : String
  now : Nat
  deriving DecidableEq, Repr

/-- The value the server stores for a `serverTimestamp()` written under reply `r`. -/
def serverTimestamp (r : Reply) : Value := .time r.now

/-- A reply of a call that goes through. -/
def Reply.fine (autoId : String) (now : Nat) : Reply := ⟨none, autoId, now⟩

/-- A reply of a call that throws an error with message `m`. -/
def Reply.throwing (m : String) : Reply := ⟨some m, "", 0⟩

/-- The SDK call `addDoc(collection(db, c), data)`: writes `data` under the
generated id (the write is a `setDoc` on the new reference, so it replaces a
document that already has this id) and returns the id. -/
def addDoc (db : Firestore) (c : Coll) (data : Obj) (r : Reply) :
    Except String String × Firestore :=
  match r.fault with
  | some m => (.error m, db)
  | none =>
    (.ok r.autoId, db.setColl c (⟨r.autoId, data⟩ :: (db.coll c).filter (fun d => d.id ≠ r.autoId)))

/-- The message of the error thrown by an update of a document that does not exist. -/
def notFoundMessage (c : Coll) (id : String) : String :=
  "No document to update: projects/infraestrutura-inovar/databases/(default)/documents/" ++
    (match c with
      | .users => "users"
      | .enderecos => "enderecos"
      | .gestao => "gestao") ++ "/" ++ id

/-- The SDK call `updateDoc(doc(db, c, id), patch)`: merges the fields of
`patch` into the document; throws when there is no such document. -/
def updateDoc (db : Firestore) (c : Coll) (id : String) (patch : Obj) (r : Reply) :
    Except String Unit × Firestore :=
  match r.fault with
  | some m => (.error m, db)
  | none =>
    if (db.coll c).any (fun d => d.id = id) then
      (.ok (), db.setColl c ((db.coll c).map
        (fun d => if d.id = id then { d with data := d.data ++ patch } else d)))
    else (.error (notFoundMessage c id), db)

/-- The SDK call `deleteDoc(doc(db, c, id))`: removes the document; no error
when it does not exist. -/
def deleteDoc (db : Firestore) (c : Coll) (id : String) (r : Reply) :
    Except String Unit × Firestore :=
  match r.fault with
  | some m => (.error m, db)
  | none => (.ok (), db.setColl c ((db.coll c).filter (fun d => d.id ≠ id)))

/-! ### Queries -/

/-- A query: a collection, the equality filters added by `where(f, '==', v)`
and the field of an `orderBy(f, 'desc')` clause, if any. -/
structure Query where
  coll : Coll
  filters : List (String × Value)
  orderDesc : Option String
  deriving DecidableEq, Repr

/-- The query `collection(db, c)`. -/
def collection (c : Coll) : Query := ⟨c, [], none⟩

/-- The query `query(q, where(f, '==', v))`. -/
def Query.whereEq (q : Query) (f : String) (v : Value) : Query :=
  { q with filters := q.filters ++ [(f, v)] }

/-- The query `query(q, orderBy(f, 'desc'))`. -/
def Query.orderByDesc (q : Query) (f : String) : Query :=
  { q with orderDesc := some f }

/-- Code points of a string; strings are ordered by them, lexicographically. -/
def codes (s : String) : List ℕ := s.toList.map Char.toNat

/-- The place of a value in the store's order of values: first by type
(null, boolean, timestamp, string, array), then within the type. -/
def Value.sortKey : Value → ℕ ×ₗ List (List ℕ)
  | .null => toLex (0, [])
  | .bool b => toLex (1, [[if b then 1 else 0]])
  | .time t => toLex (3, [[t]])
  | .str s => toLex (4, [codes s])
  | .arr xs => toLex (8, xs.map codes)

/-- The place of a document in a query ordered by field `f`: the value of the
field, then the document id. -/
def Doc.orderKey (f : String) (d : Doc) : (ℕ ×ₗ List (List ℕ)) ×ₗ List ℕ :=
  toLex (((prop d.data f).getD .null).sortKey, codes d.id)

/-- Document `d` comes no later than `e` in a query ordered by `f` descending
(ties on the field are broken by id, descending too). -/
def descBefore (f : String) (d e : Doc) : Bool := decide (Doc.orderKey f e ≤ Doc.orderKey f d)

/-- Document `d` comes no later than `e` in a query without an order clause
(by id, ascending). -/
def idBefore (d e : Doc) : Bool := decide (codes d.id ≤ codes e.id)

/-- Insert a document into a list sorted by `before`. -/
def insertDoc (before : Doc → Doc → Bool) (a : Doc) : List Doc → List Doc
  | [] => [a]
  | b :: rest => if before a b then a :: b :: rest else b :: insertDoc before a rest

/-- Sort documents by `before`. -/
def sortDocs (before : Doc → Doc → Bool) : List Doc → List Doc
  | [] => []
  | a :: rest => insertDoc before a (sortDocs before rest)

/-- A document passes `where(f, '==', v)` when it has field `f` with value `v`. -/
def Doc.passes (d : Doc) (filters : List (String × Value)) : Bool :=
  filters.all (fun fv => decide (prop d.data fv.1 = some fv.2))

/-- The documents a query yields: those of the collection that pass every
filter; with an order clause, only those that have the order field, sorted by
it descending; without one, sorted by id. -/
def Query.run (db : Firestore) (q : Query) : List Doc :=
  let hits := (db.coll q.coll).filter (fun d => d.passes q.filters)
  match q.orderDesc with
  | some f => sortDocs (descBefore f) (hits.filter (fun d => (prop d.data f).isSome))
  | none => sortDocs idBefore hits

/-- The SDK call `getDocs(q)`: the snapshot of the query, or a thrown error. -/
def getDocs (db : Firestore) (q : Query) (r : Reply) : Except String (List Doc) :=
  match r.fault with
  | some m => .error m
  | none => .ok (q.run db)

/-! ## The result envelope -/

/-- The principal issued by the identity provider. -/
structure User where
  uid : String
  email : String
  deriving DecidableEq, Repr

/-- A value stored in a frequency table: a number, or the string obtained when
`+ 1` is applied to a member inherited from `Object.prototype` (the text of
that member followed by `ones` characters `1`). -/
inductive Cell where
  | count (n : Nat)
  | text (member : String) (ones : Nat)
  deriving DecidableEq, Repr

/-- The own properties of a frequency table (an object created by `{}`), in
creation order. -/
abbrev Table := List (String × Cell)

/-- The statistics snapshot built by `getStats`. -/
structure Stats where
  total : Nat
  porStatus : Table
  porCidade : Table
  porProjeto : Table
  recentes : List Obj
  deriving DecidableEq, Repr

/-- The `data` payload of an envelope: the address records, the management
dataset, or the statistics. -/
inductive Data where
  | records (rs : List Obj)
  | gestao (g : Obj)
  | stats (s : Stats)
  deriving DecidableEq, Repr

/-- The object an operation resolves to; `none` is a key the object does not have. -/
structure Envelope where
  success : Bool
  data : Option Data := none
  id : Option String := none
  user : Option User := none
  imported : Option Nat := none
  error : Option String := none
  deriving DecidableEq, Repr

/-- The envelope `{ success: false, error: m }`. -/
def Envelope.failure (m : String) : Envelope := { success := false, error := some m }

/-! ## authService -/

/-- The identity provider either rejects a call with an error message or
returns the principal. -/
abbrev ProviderReply := Except String User

/-- `authService.register(email, password, userData)`: `p` is the provider's
answer to `createUserWithEmailAndPassword`, `r` the store's reply to the write
of the profile document. -/
def authService.register (db : Firestore) (_email _password : String) (userData : Obj)
    (p : ProviderReply) (r : Reply) : Envelope × Firestore :=
  match p with
  | .error m => (Envelope.failure m, db)
  | .ok user =>
    match addDoc db .users
        ([("uid", .str user.uid), ("email", .str user.email)] ++ userData ++
          [("createdAt", serverTimestamp r)]) r with
    | (.error m, db') => (Envelope.failure m, db')
    | (.ok _, db') => ({ success := true, user := some user }, db')

/-- `authService.login(email, password)`: `p` is the provider's answer to
`signInWithEmailAndPassword`. -/
def authService.login (_email _password : String) (p : ProviderReply) : Envelope :=
  match p with
  | .error m => Envelope.failure m
  | .ok user => { success := true, user := some user }

/-- `authService.logout()`: `p` is the provider's answer to `signOut`
(`none` when it goes through). -/
def authService.logout (p : Option String) : Envelope :=
  match p with
  | some m => Envelope.failure m
  | none => { success := true }

/-! ## enderecosService -/

/-- The record built from a document of a snapshot: `{ id: doc.id, ...doc.data() }`. -/
def toRecord (d : Doc) : Obj := ("id", .str d.id) :: d.data

/-- `enderecosService.getAll()`. -/
def enderecosService.getAll (db : Firestore) (r : Reply) : Envelope :=
  match getDocs db ((collection .enderecos).orderByDesc "createdAt") r with
  | .error m => Envelope.failure m
  | .ok querySnapshot => { success := true, data := some (.records (querySnapshot.map toRecord)) }

/-- `enderecosService.add(endereco)`. -/
def enderecosService.add (db : Firestore) (endereco : Obj) (r : Reply) : Envelope × Firestore :=
  match addDoc db .enderecos
      (endereco ++ [("createdAt", serverTimestamp r), ("updatedAt", serverTimestamp r)]) r with
  | (.error m, db') => (Envelope.failure m, db')
  | (.ok id, db') => ({ success := true, id := some id }, db')

/-- `enderecosService.update(id, endereco)`. -/
def enderecosService.update (db : Firestore) (id : String) (endereco : Obj) (r : Reply) :
    Envelope × Firestore :=
  match updateDoc db .enderecos id (endereco ++ [("updatedAt", serverTimestamp r)]) r with
  | (.error m, db') => (Envelope.failure m, db')
  | (.ok _, db') => ({ success := true }, db')

/-- `enderecosService.delete(id)`. -/
def enderecosService.delete (db : Firestore) (id : String) (r : Reply) : Envelope × Firestore :=
  match deleteDoc db .enderecos id r with
  | (.error m, db') => (Envelope.failure m, db')
  | (.ok _, db') => ({ success := true }, db')

/-- One step of the filter section of `search`: `if (filters.f) q = query(q, where(f, '==', filters.f))`. -/
def applyFilter (filters : Obj) (f : String) (q : Query) : Query :=
  match prop filters f with
  | some v => if v.truthy then q.whereEq f v else q
  | none => q

/-- `enderecosService.search(filters)`. -/
def enderecosService.search (db : Firestore) (filters : Obj) (r : Reply) : Envelope :=
  let q := collection .enderecos
  let q := applyFilter filters "cidade" q
  let q := applyFilter filters "projeto" q
  let q := applyFilter filters "status" q
  let q := q.orderByDesc "createdAt"
  match getDocs db q r with
  | .error m => Envelope.failure m
  | .ok querySnapshot => { success := true, data := some (.records (querySnapshot.map toRecord)) }

/-! ## gestaoService -/

/-- The JavaScript expression `v || d`. -/
def jsOr (v : Option Value) (d : Value) : Value :=
  match v with
  | some x => if x.truthy then x else d
  | none => d

/-- The assignment `o[k] = v` on a plain object: for the key `__proto__` it
goes to the inherited setter and creates no own property. -/
def assign (o : Obj) (k : String) (v : Value) : Obj :=
  if k = "__proto__" then o else o ++ [(k, v)]

/-- The object `gestaoData` before the snapshot is read. -/
def gestaoEmpty : Obj :=
  [("projetos", .arr []), ("subprojetos", .arr []), ("supervisores", .arr []),
   ("equipes", .arr []), ("cidades", .arr [])]

/-- `gestaoService.get()`. -/
def gestaoService.get (db : Firestore) (r : Reply) : Envelope :=
  match getDocs db (collection .gestao) r with
  | .error m => Envelope.failure m
  | .ok querySnapshot =>
    { success := true,
      data := some (.gestao (querySnapshot.foldl
        (fun gestaoData d => assign gestaoData d.id (jsOr (prop d.data "items") (.arr [])))
        gestaoEmpty)) }

/-- `gestaoService.save(type, items)`: `r` is the store's reply to the update,
`rCreate` its reply to the `addDoc` of the fallback. -/
def gestaoService.save (db : Firestore) (type : String) (items : Value) (r rCreate : Reply) :
    Envelope × Firestore :=
  match updateDoc db .gestao type [("items", items), ("updatedAt", serverTimestamp r)] r with
  | (.ok _, db') => ({ success := true }, db')
  | (.error _, db') =>
    match addDoc db' .gestao
        [("type", .str type), ("items", items), ("createdAt", serverTimestamp rCreate),
         ("updatedAt", serverTimestamp rCreate)] rCreate with
    | (.ok _, db'') => ({ success := true }, db'')
    | (.error createError, db'') => (Envelope.failure createError, db'')

/-! ## statsService -/

/-- Names of the members every object created by `{}` inherits from
`Object.prototype` as functions. -/
def inheritedMethods : List String :=
  ["constructor", "__defineGetter__", "__defineSetter__", "hasOwnProperty",
   "__lookupGetter__", "__lookupSetter__", "isPrototypeOf", "propertyIsEnumerable",
   "toString", "valueOf", "toLocaleString"]

/-- Names a table inherits: the methods and the accessor `__proto__`. -/
def inheritedNames : List String := "__proto__" :: inheritedMethods

/-- The own property `k` of a table, if it has one. -/
def Table.own : Table → String → Option Cell
  | [], _ => none
  | (k', c) :: rest, k => if k' = k then some c else Table.own rest k

/-- Define or overwrite the own property `k` of a table. -/
def Table.put : Table → String → Cell → Table
  | [], k, c => [(k, c)]
  | (k', c') :: rest, k, c => if k' = k then (k', c) :: rest else (k', c') :: Table.put rest k c

/-- The statement `table[k] = (table[k] || 0) + 1`. An own number is
incremented. Without an own property the read finds what the table inherits:
a method of `Object.prototype` is truthy and `+ 1` turns it into a string; the
accessor `__proto__` reads as an object, and its setter ignores the string
that results, so nothing is stored; any other key reads `undefined` and is set to 1. -/
def Table.bump (t : Table) (k : String) : Table :=
  match Table.own t k with
  | some (.count n) => Table.put t k (.count (n + 1))
  | some (.text m j) => Table.put t k (.text m (j + 1))
  | none =>
    if k = "__proto__" then t
    else if k ∈ inheritedMethods then Table.put t k (.text k 1)
    else Table.put t k (.count 1)

/-- The body of the `forEach` of `getStats`, applied to one record. -/
def tally (stats : Stats) (endereco : Obj) : Stats :=
  let status := jsOr (prop endereco "status") (.str "Não definido")
  let cidade := jsOr (prop endereco "cidade") (.str "Não definida")
  let projeto := jsOr (prop endereco "projeto") (.str "Não definido")
  { stats with
    porStatus := Table.bump stats.porStatus status.toPropertyKey
    porCidade := Table.bump stats.porCidade cidade.toPropertyKey
    porProjeto := Table.bump stats.porProjeto projeto.toPropertyKey }

/-- The statistics of a list of records: lines 252 to 273 of the source. -/
def computeStats (data : List Obj) : Stats :=
  data.foldl tally
    { total := data.length, porStatus := [], porCidade := [], porProjeto := [],
      recentes := data.take 10 }

/-- `statsService.getStats()`: `r` is the store's reply to the query of the
`getAll` it calls. An envelope of `getAll` that is not a success is returned
as it is. -/
def statsService.getStats (db : Firestore) (r : Reply) : Envelope :=
  let enderecos := enderecosService.getAll db r
  if !enderecos.success then enderecos
  else
    match enderecos.data with
    | some (.records data) => { success := true, data := some (.stats (computeStats data)) }
    | _ => Envelope.failure "Cannot read properties of undefined (reading 'length')"

/-! ## importExportService -/

/-- The `for` loop of `importBatch`: each record comes with the store's reply
to the `addDoc` of its `add`; `batch` collects the ids of the adds that succeeded. -/
def importLoop (db : Firestore) : List (Obj × Reply) → List (Option String) →
    List (Option String) × Firestore
  | [], batch => (batch, db)
  | (endereco, r) :: rest, batch =>
    let result := enderecosService.add db endereco r
    if result.1.success then importLoop result.2 rest (batch ++ [result.1.id])
    else importLoop result.2 rest batch

/-- `importExportService.importBatch(enderecos)`. -/
def importExportService.importBatch (db : Firestore) (enderecos : List (Obj × Reply)) :
    Envelope × Firestore :=
  let out := importLoop db enderecos []
  ({ success := true, imported := some out.1.length }, out.2)

/-! ## Notions used to state the properties -/

/-- The records carried by an envelope (none when it carries no record list). -/
def Envelope.records (e : Envelope) : List Obj :=
  match e.data with
  | some (.records rs) => rs
  | _ => []

/-- Record `rec` meets the constraint `search` derives from field `f` of the
filter object: a constraint is derived only when `filters[f]` is truthy, and
then the record must hold the same value. -/
def meets (filters : Obj) (f : String) (rec : Obj) : Bool :=
  !truthy (prop filters f) || decide (prop rec f = prop filters f)

/-- Record `rec` meets the constraint of field `f` read as "every field present
in the filter object constrains". -/
def meetsIfPresent (filters : Obj) (f : String) (rec : Obj) : Bool :=
  !(prop filters f).isSome || decide (prop rec f = prop filters f)

/-- The `where` clauses `search` adds for field `f`. -/
def constraint (filters : Obj) (f : String) : List (String × Value) :=
  match prop filters f with
  | some v => if v.truthy then [(f, v)] else []
  | none => []

/-- The statistics carried by an envelope, if it carries statistics. -/
def Envelope.stats (e : Envelope) : Option Stats :=
  match e.data with
  | some (.stats s) => some s
  | _ => none

/-- The key under which `getStats` counts a record in the table of field `f`:
`(endereco[f] || sentinel)` converted to a property key. -/
def keyOf (f sentinel : String) (rec : Obj) : String :=
  (jsOr (prop rec f) (.str sentinel)).toPropertyKey

/-- The sum of the values of a table, when all of them are numbers. -/
def Table.numericSum : Table → Option Nat
  | [] => some 0
  | (_, .count n) :: rest => (Table.numericSum rest).map (fun s => n + s)
  | (_, .text _ _) :: _ => none

/-- The envelopes returned by calling `add` on each record of a batch in list
order, each call starting from the store the previous one left, and the store
after the last call. -/
def addRun (db : Firestore) : List (Obj × Reply) → List Envelope × Firestore
  | [] => ([], db)
  | (endereco, r) :: rest =>
    let result := enderecosService.add db endereco r
    let out := addRun result.2 rest
    (result.1 :: out.1, out.2)

/-- How many of the payload keys `data`, `id`, `user`, `imported` an envelope has. -/
def Envelope.payloads (e : Envelope) : Nat :=
  (if e.data.isSome then 1 else 0) + (if e.id.isSome then 1 else 0) +
    (if e.user.isSome then 1 else 0) + (if e.imported.isSome then 1 else 0)

/-- An envelope with exactly one of payload and error: one payload and no
error on success, an error and no payload on failure. -/
def Envelope.payloadOrError (e : Envelope) : Bool :=
  if e.success then e.payloads == 1 && e.error.isNone
  else e.payloads == 0 && e.error.isSome

/-- An envelope of an operation that has nothing to return: neither payload
nor error on success, an error and no payload on failure. -/
def Envelope.bareOrError (e : Envelope) : Bool :=
  if e.success then e.payloads == 0 && e.error.isNone
  else e.payloads == 0 && e.error.isSome

/-- The management dataset carried by an envelope (empty when it carries none). -/
def Envelope.gestao (e : Envelope) : Obj :=
  match e.data with
  | some (.gestao g) => g
  | _ => []

/-- A store with no document. -/
def emptyStore : Firestore := ⟨[], [], []⟩

/-- Record `rec` has a truthy value in field `f` whose property key is `k`. -/
def holdsKey (f k : String) (rec : Obj) : Bool :=
  match prop rec f with
  | some v => v.truthy && decide (v.toPropertyKey = k)
  | none => false

/-- The number `getStats` stores under key `k` of the table of field `f`: the
records whose `f` is truthy with key `k`, plus, when `k` is the sentinel of the
field, the records whose `f` is falsy (absent, `null`, `false` or empty). -/
def expectedCount (f sentinel k : String) (data : List Obj) : Nat :=
  data.countP (holdsKey f k) +
    (if k = sentinel then data.countP (fun rec => !truthy (prop rec f)) else 0)

/-- The number the table of field `f` holds under key `k` when read as "the
sentinel counts the records without the field, any other key the records whose
field is that string". -/
def claimedCount (f sentinel k : String) (data : List Obj) : Nat :=
  if k = sentinel then data.countP (fun rec => (prop rec f).isNone)
  else data.countP (fun rec => decide (prop rec f = some (.str k)))

/-- The own property of a table that holds the count `n`: absent when `n` is 0. -/
def countCell (n : Nat) : Option Cell := if n = 0 then none else some (.count n)

/-- A store whose two addresses have the status "Não definido" and the empty status. -/
def sentinelStore : Firestore :=
  ⟨[], [⟨"a", [("status", .str "Não definido"), ("createdAt", .time 1)]⟩,
        ⟨"b", [("status", .str ""), ("createdAt", .time 2)]⟩], []⟩

/-- A store whose two addresses share the status "Ativo". -/
def ativoStore : Firestore :=
  ⟨[], [⟨"a", [("status", .str "Ativo"), ("cidade", .str "Recife"), ("createdAt", .time 1)]⟩,
        ⟨"b", [("status", .str "Ativo"), ("createdAt", .time 2)]⟩], []⟩

/-- A store with one address, whose status is "__proto__" and whose project is
"constructor". -/
def inheritedKeyStore : Firestore :=
  ⟨[], [⟨"a", [("status", .str "__proto__"), ("cidade", .str "Recife"),
               ("projeto", .str "constructor"), ("createdAt", .time 1)]⟩], []⟩

/-! ## Sorting: what the order clause guarantees -/

/-- A list in which every document comes no later than those after it. -/
def SortedBy (before : Doc → Doc → Bool) (l : List Doc) : Prop :=
  l.Pairwise (fun d e => before d e = true)

theorem descBefore_total (f : String) (d e : Doc) :
    descBefore f d e = true ∨ descBefore f e d = true := by
  unfold descBefore
  rcases le_total (Doc.orderKey f e) (Doc.orderKey f d) with h | h
  · exact Or.inl (decide_eq_true h)
  · exact Or.inr (decide_eq_true h)

theorem descBefore_trans (f : String) (a b c : Doc)
    (hab : descBefore f a b = true) (hbc : descBefore f b c = true) :
    descBefore f a c = true := by
  unfold descBefore at *
  exact decide_eq_true (le_trans (of_decide_eq_true hbc) (of_decide_eq_true hab))

theorem mem_insertDoc (before : Doc → Doc → Bool) (a x : Doc) (l : List Doc) :
    x ∈ insertDoc before a l ↔ x = a ∨ x ∈ l := by
  induction l with
  | nil => simp [insertDoc]
  | cons b rest ih =>
    unfold insertDoc
    split
    · simp
    · simp only [List.mem_cons, ih]
      tauto

theorem mem_sortDocs (before : Doc → Doc → Bool) (x : Doc) (l : List Doc) :
    x ∈ sortDocs before l ↔ x ∈ l := by
  induction l with
  | nil => simp [sortDocs]
  | cons a rest ih => simp [sortDocs, mem_insertDoc, ih]

theorem sortedBy_insertDoc (before : Doc → Doc → Bool)
    (total : ∀ d e, before d e = true ∨ before e d = true)
    (trans : ∀ a b c, before a b = true → before b c = true → before a c = true)
    (a : Doc) (l : List Doc) (hl : SortedBy before l) :
    SortedBy before (insertDoc before a l) := by
  induction l with
  | nil => simp [insertDoc, SortedBy]
  | cons b rest ih =>
    unfold SortedBy at hl ih ⊢
    rw [List.pairwise_cons] at hl
    unfold insertDoc
    split
    · rename_i hab
      refine List.pairwise_cons.mpr ⟨?_, List.pairwise_cons.mpr hl⟩
      intro x hx
      rcases List.mem_cons.mp hx with rfl | hx
      · exact hab
      · exact trans _ _ _ hab (hl.1 x hx)
    · rename_i hab
      refine List.pairwise_cons.mpr ⟨?_, ih hl.2⟩
      intro x hx
      rcases (mem_insertDoc before a x rest).mp hx with rfl | hx
      · rcases total b x with h | h
        · exact h
        · exact absurd h hab
      · exact hl.1 x hx

theorem sortedBy_sortDocs (before : Doc → Doc → Bool)
    (total : ∀ d e, before d e = true ∨ before e d = true)
    (trans : ∀ a b c, before a b = true → before b c = true → before a c = true)
    (l : List Doc) : SortedBy before (sortDocs before l) := by
  induction l with
  | nil => simp [sortDocs, SortedBy]
  | cons a rest ih => exact sortedBy_insertDoc before total trans a _ ih

/-- Inserting before a list all of whose documents come no earlier puts the
document at the head. -/
theorem insertDoc_of_all_before (before : Doc → Doc → Bool) (a : Doc) (l : List Doc)
    (h : ∀ x ∈ l, before a x = true) : insertDoc before a l = a :: l := by
  cases l with
  | nil => rfl
  | cons b rest => simp [insertDoc, h b (List.mem_cons_self _ _)]

theorem filter_insertDoc (before : Doc → Doc → Bool)
    (trans : ∀ a b c, before a b = true → before b c = true → before a c = true)
    (p : Doc → Bool) (a : Doc) (l : List Doc) (hl : SortedBy before l) :
    (insertDoc before a l).filter p =
      if p a then insertDoc before a (l.filter p) else l.filter p := by
  induction l with
  | nil => by_cases hp : p a <;> simp [insertDoc, hp]
  | cons b rest ih =>
    unfold SortedBy at hl ih
    rw [List.pairwise_cons] at hl
    by_cases hab : before a b = true
    · have hall : ∀ x ∈ b :: rest, before a x = true := by
        intro x hx
        rcases List.mem_cons.mp hx with rfl | hx
        · exact hab
        · exact trans _ _ _ hab (hl.1 x hx)
      have hall' : ∀ x ∈ (b :: rest).filter p, before a x = true :=
        fun x hx => hall x (List.mem_filter.mp hx).1
      rw [insertDoc_of_all_before before a _ hall, insertDoc_of_all_before before a _ hall']
      by_cases hp : p a <;> simp [hp]
    · have hins : insertDoc before a (b :: rest) = b :: insertDoc before a rest := by
        simp [insertDoc, hab]
      rw [hins]
      by_cases hpb : p b
      · rw [List.filter_cons_of_pos hpb, List.filter_cons_of_pos hpb, ih hl.2]
        by_cases hp : p a
        · simp [hp, insertDoc, hab]
        · simp [hp]
      · rw [List.filter_cons_of_neg hpb, List.filter_cons_of_neg hpb, ih hl.2]

/-- Filtering a sorted snapshot gives the sorted snapshot of the filtered documents. -/
theorem filter_sortDocs (before : Doc → Doc → Bool)
    (total : ∀ d e, before d e = true ∨ before e d = true)
    (trans : ∀ a b c, before a b = true → before b c = true → before a c = true)
    (p : Doc → Bool) (l : List Doc) :
    (sortDocs before l).filter p = sortDocs before (l.filter p) := by
  induction l with
  | nil => simp [sortDocs]
  | cons a rest ih =>
    have hs := sortedBy_sortDocs before total trans rest
    simp only [sortDocs]
    rw [filter_insertDoc before trans p a _ hs, ih]
    by_cases hp : p a
    · simp [hp, sortDocs]
    · simp [hp]

/-! ## search and getAll -/

theorem applyFilter_eq (filters : Obj) (f : String) (q : Query) :
    applyFilter filters f q = { q with filters := q.filters ++ constraint filters f } := by
  unfold applyFilter constraint
  cases prop filters f with
  | none => simp
  | some v => by_cases hv : v.truthy = true <;> simp [hv, Query.whereEq]

theorem prop_toRecord (d : Doc) (f : String) (hf : f ≠ "id") :
    prop (toRecord d) f = prop d.data f := by
  unfold toRecord
  rw [prop]
  cases prop d.data f with
  | some w => rfl
  | none => simp [Ne.symm hf]

theorem passes_append (d : Doc) (F G : List (String × Value)) :
    d.passes (F ++ G) = (d.passes F && d.passes G) := by
  simp [Doc.passes, List.all_append]

theorem passes_constraint (d : Doc) (filters : Obj) (f : String) (hf : f ≠ "id") :
    d.passes (constraint filters f) = meets filters f (toRecord d) := by
  unfold constraint meets
  rw [prop_toRecord d f hf]
  cases hq : prop filters f with
  | none => simp [Doc.passes, truthy]
  | some v =>
    by_cases hv : v.truthy = true
    · simp [hv, Doc.passes, truthy]
    · simp [hv, Doc.passes, truthy]

theorem getAll_fine (db : Firestore) (autoId : String) (now : Nat) :
    enderecosService.getAll db (Reply.fine autoId now) =
      { success := true,
        data := some (.records ((sortDocs (descBefore "createdAt")
          (db.enderecos.filter (fun d => (prop d.data "createdAt").isSome))).map toRecord)) } := by
  simp [enderecosService.getAll, getDocs, Reply.fine, Query.run, collection, Query.orderByDesc,
    Firestore.coll, Doc.passes]

theorem search_fine (db : Firestore) (filters : Obj) (autoId : String) (now : Nat) :
    enderecosService.search db filters (Reply.fine autoId now) =
      { success := true,
        data := some (.records ((sortDocs (descBefore "createdAt")
          ((db.enderecos.filter (fun d => d.passes
              (constraint filters "cidade" ++ constraint filters "projeto" ++
                constraint filters "status"))).filter
            (fun d => (prop d.data "createdAt").isSome))).map toRecord)) } := by
  simp [enderecosService.search, applyFilter_eq, getDocs, Reply.fine, Query.run, collection,
    Query.orderByDesc, Firestore.coll]

/-- C1 (amended): when the store's query goes through, `search(filters)`
succeeds with exactly the records of `getAll()` whose `cidade`, `projeto` and
`status` equal the filter's value for each of those three fields whose value in
the filter object is truthy, in the order of `getAll()`; a field that is absent
or falsy (`null`, `false`, the empty string) imposes no constraint, and
`search({})` returns the same envelope as `getAll()`. -/
theorem search_eq_filter_getAll (db : Firestore) (filters : Obj) (autoId autoId' : String)
    (now now' : Nat) :
    enderecosService.search db filters (Reply.fine autoId now) =
      { success := true,
        data := some (.records
          ((enderecosService.getAll db (Reply.fine autoId' now')).records.filter
            (fun rec => meets filters "cidade" rec && meets filters "projeto" rec &&
              meets filters "status" rec))) } ∧
    enderecosService.search db [] (Reply.fine autoId now) =
      enderecosService.getAll db (Reply.fine autoId' now') := by
  constructor
  · rw [search_fine, getAll_fine]
    simp only [Envelope.records, List.filter_map]
    rw [filter_sortDocs _ (descBefore_total _) (descBefore_trans _), List.filter_filter,
      List.filter_filter]
    congr 5
    apply List.filter_congr
    intro d _
    simp only [Function.comp, passes_append]
    rw [passes_constraint d filters "cidade" (by decide),
      passes_constraint d filters "projeto" (by decide),
      passes_constraint d filters "status" (by decide)]
    exact Bool.and_comm _ _
  · rw [search_fine, getAll_fine]
    simp [constraint, prop, Doc.passes]

/-- C1 (as stated) fails: with one address whose `cidade` is "Recife", the
filter object `{ cidade: "" }` has the field `cidade`, no record has the empty
string as `cidade`, and yet `search` returns the record. -/
theorem search_present_field_counterexample :
    enderecosService.search ⟨[], [⟨"a", [("cidade", .str "Recife"), ("createdAt", .time 1)]⟩], []⟩
        [("cidade", .str "")] (Reply.fine "" 0) ≠
      { success := true,
        data := some (.records
          ((enderecosService.getAll
              ⟨[], [⟨"a", [("cidade", .str "Recife"), ("createdAt", .time 1)]⟩], []⟩
              (Reply.fine "" 0)).records.filter
            (fun rec => meetsIfPresent [("cidade", .str "")] "cidade" rec &&
              meetsIfPresent [("cidade", .str "")] "projeto" rec &&
              meetsIfPresent [("cidade", .str "")] "status" rec))) } := by
  decide

/-! ## getStats -/

theorem foldl_tally_total (data : List Obj) (s : Stats) :
    (data.foldl tally s).total = s.total ∧ (data.foldl tally s).recentes = s.recentes := by
  induction data generalizing s with
  | nil => exact ⟨rfl, rfl⟩
  | cons a rest ih => simpa [tally] using ih (tally s a)

theorem foldl_tally_tables (data : List Obj) (s : Stats) :
    (data.foldl tally s).porStatus =
        (data.map (keyOf "status" "Não definido")).foldl Table.bump s.porStatus ∧
    (data.foldl tally s).porCidade =
        (data.map (keyOf "cidade" "Não definida")).foldl Table.bump s.porCidade ∧
    (data.foldl tally s).porProjeto =
        (data.map (keyOf "projeto" "Não definido")).foldl Table.bump s.porProjeto := by
  induction data generalizing s with
  | nil => exact ⟨rfl, rfl, rfl⟩
  | cons a rest ih => simpa [tally, keyOf] using ih (tally s a)

/-- With a query that goes through, `getStats` succeeds with the statistics of
the records of `getAll`. -/
theorem getStats_fine (db : Firestore) (autoId : String) (now : Nat) :
    statsService.getStats db (Reply.fine autoId now) =
      { success := true,
        data := some (.stats
          (computeStats (enderecosService.getAll db (Reply.fine autoId now)).records)) } := by
  simp [statsService.getStats, getAll_fine, Envelope.records]

/-- With a query that throws, `getAll` returns the failure envelope. -/
theorem getAll_throwing (db : Firestore) (r : Reply) (m : String) (h : r.fault = some m) :
    enderecosService.getAll db r = Envelope.failure m := by
  simp [enderecosService.getAll, getDocs, h]

/-- An envelope of `getAll` is a failure only when the query threw. -/
theorem getAll_success_false (db : Firestore) (r : Reply)
    (h : (enderecosService.getAll db r).success = false) :
    ∃ m, r.fault = some m ∧ enderecosService.getAll db r = Envelope.failure m := by
  cases hf : r.fault with
  | some m => exact ⟨m, rfl, getAll_throwing db r m hf⟩
  | none => simp [enderecosService.getAll, getDocs, hf] at h

/-- C3: when `getAll()` succeeds with N records, `getStats()` succeeds and its
`recentes` has length `min(N, 10)` and is the first `min(N, 10)` records of the
data of `getAll()`, in the same order. -/
theorem getStats_recentes (db : Firestore) (autoId : String) (now : Nat) :
    ∃ s, statsService.getStats db (Reply.fine autoId now) =
        { success := true, data := some (.stats s) } ∧
      s.recentes.length =
        min (enderecosService.getAll db (Reply.fine autoId now)).records.length 10 ∧
      s.recentes = (enderecosService.getAll db (Reply.fine autoId now)).records.take
        (min (enderecosService.getAll db (Reply.fine autoId now)).records.length 10) := by
  refine ⟨_, getStats_fine db autoId now, ?_, ?_⟩
  · rw [computeStats, (foldl_tally_total _ _).2]
    simp only [List.length_take]
    exact Nat.min_comm _ _
  · rw [computeStats, (foldl_tally_total _ _).2]
    simp only
    rw [List.take_eq_take]
    omega

/-- C10: when `getAll()` returns a failure envelope, `getStats()` returns that
same envelope (success false, same error message) and it carries no statistics. -/
theorem getStats_failure_passthrough (db : Firestore) (r : Reply)
    (h : (enderecosService.getAll db r).success = false) :
    statsService.getStats db r = enderecosService.getAll db r ∧
    (statsService.getStats db r).data = none ∧
    (statsService.getStats db r).success = false ∧
    (statsService.getStats db r).error = (enderecosService.getAll db r).error := by
  have hs : statsService.getStats db r = enderecosService.getAll db r := by
    simp [statsService.getStats, h]
  obtain ⟨m, _, hm⟩ := getAll_success_false db r h
  rw [hs]
  refine ⟨rfl, ?_, h, rfl⟩
  rw [hm]
  rfl

theorem getStats_failure_passthrough_witness :
    (enderecosService.getAll ⟨[], [], []⟩ (Reply.throwing "offline")).success = false ∧
    statsService.getStats ⟨[], [], []⟩ (Reply.throwing "offline") =
      { success := false, error := some "offline" } :=
  ⟨by decide,
    (getStats_failure_passthrough ⟨[], [], []⟩ (Reply.throwing "offline") (by decide)).1.trans
      (by decide)⟩

/-! ## importBatch -/

/-- The envelope of `add` is a success exactly when its `addDoc` does not throw. -/
theorem add_success_iff (db : Firestore) (endereco : Obj) (r : Reply) :
    (enderecosService.add db endereco r).1.success = r.fault.isNone := by
  unfold enderecosService.add addDoc
  cases r.fault <;> rfl

theorem importLoop_eq (enderecos : List (Obj × Reply)) (db : Firestore)
    (batch : List (Option String)) :
    (importLoop db enderecos batch).1.length =
        batch.length + (addRun db enderecos).1.countP (fun e => e.success) ∧
    (importLoop db enderecos batch).2 = (addRun db enderecos).2 := by
  induction enderecos generalizing db batch with
  | nil => simp [importLoop, addRun]
  | cons p rest ih =>
    obtain ⟨endereco, r⟩ := p
    by_cases hs : (enderecosService.add db endereco r).1.success = true
    · have h := ih (enderecosService.add db endereco r).2
        (batch ++ [(enderecosService.add db endereco r).1.id])
      simp only [importLoop, addRun, hs, if_true, List.countP_cons_of_pos]
      refine ⟨?_, h.2⟩
      rw [h.1]
      simp only [List.length_append, List.length_singleton]
      omega
    · have h := ih (enderecosService.add db endereco r).2 batch
      simp only [importLoop, addRun, hs, Bool.false_eq_true, if_false]
      refine ⟨?_, h.2⟩
      rw [h.1, List.countP_cons_of_neg _ _ (by simpa using hs)]

theorem addRun_shape (enderecos : List (Obj × Reply)) (db : Firestore) :
    (addRun db enderecos).1.length = enderecos.length ∧
    (addRun db enderecos).1.map (fun e => e.success) =
      enderecos.map (fun p => p.2.fault.isNone) := by
  induction enderecos generalizing db with
  | nil => simp [addRun]
  | cons p rest ih =>
    obtain ⟨endereco, r⟩ := p
    have h := ih (enderecosService.add db endereco r).2
    simp only [addRun, List.length_cons, List.map_cons, h.1, h.2, add_success_iff]
    exact ⟨trivial, trivial⟩

/-- C4: for every batch of n records and every pattern of replies to the
`addDoc` of each `add`, `importBatch` runs `add` once per record in list order
(the store it leaves is the one left by that run, whose envelopes are n, one
per record, failing exactly where the store rejects), and it returns
`{ success: true, imported: k }` with k the number of adds that returned
success, so that k plus the number of rejected records is n. -/
theorem importBatch_counts_successes (db : Firestore) (enderecos : List (Obj × Reply)) :
    importExportService.importBatch db enderecos =
      ({ success := true,
         imported := some ((addRun db enderecos).1.countP (fun e => e.success)) },
       (addRun db enderecos).2) ∧
    (addRun db enderecos).1.length = enderecos.length ∧
    (addRun db enderecos).1.map (fun e => e.success) =
      enderecos.map (fun p => p.2.fault.isNone) ∧
    (addRun db enderecos).1.countP (fun e => e.success) +
      enderecos.countP (fun p => p.2.fault.isSome) = enderecos.length := by
  have hl := importLoop_eq enderecos db []
  have hs := addRun_shape enderecos db
  refine ⟨?_, hs.1, hs.2, ?_⟩
  · unfold importExportService.importBatch
    simp only [hl.1, hl.2, List.length_nil, Nat.zero_add]
  · have hc : (addRun db enderecos).1.countP (fun e => e.success) =
        enderecos.countP (fun p => p.2.fault.isNone) := by
      have := congrArg (List.countP id) hs.2
      simpa [List.countP_map, Function.comp] using this
    rw [hc]
    have := List.length_eq_countP_add_countP (fun p : Obj × Reply => p.2.fault.isNone) enderecos
    rw [this]
    congr 1
    apply List.countP_congr
    intro p _
    cases p.2.fault <;> simp

/-! ## The envelope -/

/-- C8 (amended): every envelope has its `success` flag; a failure carries an
error message and no payload; a success carries no error, and exactly one
payload (`user`, `data`, `id` or `imported`) for `register`, `login`, `getAll`,
`add`, `search`, `gestaoService.get`, `getStats` and `importBatch`, while the
success of `logout`, `update`, `delete` and `gestaoService.save` is the bare
`{ success: true }`. -/
theorem envelope_shape (db : Firestore) (r r' : Reply) (p : ProviderReply) (q : Option String)
    (email password id type : String) (obj : Obj) (items : Value)
    (batch : List (Obj × Reply)) :
    (authService.register db email password obj p r).1.payloadOrError = true ∧
    (authService.login email password p).payloadOrError = true ∧
    (enderecosService.getAll db r).payloadOrError = true ∧
    (enderecosService.add db obj r).1.payloadOrError = true ∧
    (enderecosService.search db obj r).payloadOrError = true ∧
    (gestaoService.get db r).payloadOrError = true ∧
    (statsService.getStats db r).payloadOrError = true ∧
    (importExportService.importBatch db batch).1.payloadOrError = true ∧
    (authService.logout q).bareOrError = true ∧
    (enderecosService.update db id obj r).1.bareOrError = true ∧
    (enderecosService.delete db id r).1.bareOrError = true ∧
    (gestaoService.save db type items r r').1.bareOrError = true := by
  refine ⟨?_, ?_, ?_, ?_, ?_, ?_, ?_, ?_, ?_, ?_, ?_, ?_⟩
  · unfold authService.register addDoc
    cases p <;> cases r.fault <;> rfl
  · cases p <;> rfl
  · unfold enderecosService.getAll getDocs
    cases r.fault <;> rfl
  · unfold enderecosService.add addDoc
    cases r.fault <;> rfl
  · unfold enderecosService.search getDocs
    cases r.fault <;> rfl
  · unfold gestaoService.get getDocs
    cases r.fault <;> rfl
  · cases hf : r.fault with
    | some m =>
      simp [statsService.getStats, getAll_throwing db r m hf, Envelope.failure,
        Envelope.payloadOrError, Envelope.payloads]
    | none =>
      have hr : r = Reply.fine r.autoId r.now := by
        cases r
        simp_all [Reply.fine]
      rw [hr, getStats_fine]
      rfl
  · rfl
  · cases q <;> rfl
  · unfold enderecosService.update updateDoc
    cases r.fault with
    | some m => rfl
    | none =>
      simp only
      split <;> rfl
  · unfold enderecosService.delete deleteDoc
    cases r.fault <;> rfl
  · unfold gestaoService.save updateDoc addDoc
    cases r.fault with
    | some m => cases r'.fault <;> rfl
    | none =>
      simp only
      split
      · rfl
      · cases r'.fault <;> rfl

/-- C8 (as stated) fails: the envelope of a `logout` that goes through is
`{ success: true }`, a success that carries no payload. -/
theorem logout_success_counterexample :
    (authService.logout none).success = true ∧ (authService.logout none).payloads = 0 ∧
    (authService.logout none).payloadOrError = false := by
  decide

/-! ## Errors thrown by the store or the provider -/

/-- The envelope of `save`: a success when the update goes through (its reply
is fine and a document has the category as its id) or when the create of the
fallback goes through; otherwise the failure envelope of the error of the create. -/
theorem save_envelope (db : Firestore) (type : String) (items : Value) (r rCreate : Reply) :
    (gestaoService.save db type items r rCreate).1 =
      if r.fault.isNone && db.gestao.any (fun d => d.id = type) then { success := true }
      else
        match rCreate.fault with
        | some createError => Envelope.failure createError
        | none => { success := true } := by
  unfold gestaoService.save updateDoc addDoc
  cases hr : r.fault with
  | some m' => cases hc : rCreate.fault <;> simp
  | none =>
    by_cases hex : db.gestao.any (fun d => d.id = type) = true
    · simp only [Firestore.coll, hex, if_true, Option.isNone_none, Bool.and_self]
    · simp only [Firestore.coll, hex, Bool.false_eq_true, if_false, Option.isNone_none,
        Bool.true_and]
      cases hc : rCreate.fault <;> simp

/-- C7 (amended): an error with message `m` thrown by the store or provider
call of `register`, `login`, `logout`, `getAll`, `add`, `update`, `delete`,
`search`, `gestaoService.get` or `getStats` is not thrown again: the operation
returns `{ success: false, error: m }` (for `update` this includes the error
thrown when the document does not exist). `gestaoService.save` catches every
error of its update (one the store throws for any reason, and the one thrown
because no document has the category as its id) and falls back to a create:
it returns `{ success: false, error: m }` exactly when the update fails and
the create throws an error with message `m`, and `{ success: true }` when the
create goes through. `importBatch` returns a success envelope whatever its
adds meet. -/
theorem thrown_errors_become_failure_envelopes (db : Firestore) (m a : String) (n : Nat) :
    (∀ email password userData r,
      authService.register db email password userData (.error m) r = (Envelope.failure m, db)) ∧
    (∀ email password userData user,
      authService.register db email password userData (.ok user) ⟨some m, a, n⟩ =
        (Envelope.failure m, db)) ∧
    (∀ email password, authService.login email password (.error m) = Envelope.failure m) ∧
    authService.logout (some m) = Envelope.failure m ∧
    enderecosService.getAll db ⟨some m, a, n⟩ = Envelope.failure m ∧
    (∀ endereco, enderecosService.add db endereco ⟨some m, a, n⟩ = (Envelope.failure m, db)) ∧
    (∀ id endereco,
      enderecosService.update db id endereco ⟨some m, a, n⟩ = (Envelope.failure m, db)) ∧
    (∀ id endereco,
      enderecosService.update
          { db with enderecos := db.enderecos.filter (fun d => d.id ≠ id) } id endereco
          ⟨none, a, n⟩ =
        (Envelope.failure (notFoundMessage .enderecos id),
          { db with enderecos := db.enderecos.filter (fun d => d.id ≠ id) })) ∧
    (∀ id, enderecosService.delete db id ⟨some m, a, n⟩ = (Envelope.failure m, db)) ∧
    (∀ filters, enderecosService.search db filters ⟨some m, a, n⟩ = Envelope.failure m) ∧
    gestaoService.get db ⟨some m, a, n⟩ = Envelope.failure m ∧
    statsService.getStats db ⟨some m, a, n⟩ = Envelope.failure m ∧
    (∀ type items m' a' n',
      gestaoService.save db type items ⟨some m', a', n'⟩ ⟨some m, a, n⟩ =
        (Envelope.failure m, db)) ∧
    (∀ type items a' n',
      (gestaoService.save db type items ⟨some m, a, n⟩ ⟨none, a', n'⟩).1 = { success := true }) ∧
    (∀ type items a' n',
      gestaoService.save
          { db with gestao := db.gestao.filter (fun d => d.id ≠ type) } type items
          ⟨none, a', n'⟩ ⟨some m, a, n⟩ =
        (Envelope.failure m, { db with gestao := db.gestao.filter (fun d => d.id ≠ type) })) ∧
    (∀ type items a' n' a'' n'',
      (gestaoService.save
          { db with gestao := db.gestao.filter (fun d => d.id ≠ type) } type items
          ⟨none, a', n'⟩ ⟨none, a'', n''⟩).1 = { success := true }) ∧
    (∀ type items r rCreate,
      (gestaoService.save db type items r rCreate).1 = Envelope.failure m ↔
        rCreate.fault = some m ∧
          (r.fault ≠ none ∨ db.gestao.any (fun d => d.id = type) = false)) ∧
    (∀ type items r rCreate,
      (gestaoService.save db type items r rCreate).1 = { success := true } ↔
        rCreate.fault = none ∨
          (r.fault = none ∧ db.gestao.any (fun d => d.id = type) = true)) ∧
    (∀ enderecos, (importExportService.importBatch db enderecos).1.success = true ∧
      (importExportService.importBatch db enderecos).1.error = none) := by
  refine ⟨?_, ?_, ?_, ?_, ?_, ?_, ?_, ?_, ?_, ?_, ?_, ?_, ?_, ?_, ?_, ?_, ?_, ?_, ?_⟩
  · intros; rfl
  · intros; rfl
  · intros; rfl
  · rfl
  · rfl
  · intros; rfl
  · intros; rfl
  · intro id endereco
    simp [enderecosService.update, updateDoc, Firestore.coll]
  · intros; rfl
  · intros; rfl
  · rfl
  · rfl
  · intros; rfl
  · intros; rfl
  · intro type items a' n'
    simp [gestaoService.save, updateDoc, addDoc, Firestore.coll]
  · intro type items a' n' a'' n''
    simp [gestaoService.save, updateDoc, addDoc, Firestore.coll]
  · intro type items r rCreate
    rw [save_envelope]
    cases hr : r.fault <;> cases hc : rCreate.fault <;>
      by_cases hex : db.gestao.any (fun d => d.id = type) = true <;>
      simp [hex, Envelope.failure]
  · intro type items r rCreate
    rw [save_envelope]
    cases hr : r.fault <;> cases hc : rCreate.fault <;>
      by_cases hex : db.gestao.any (fun d => d.id = type) = true <;>
      simp [hex, Envelope.failure]
  · intro enderecos
    exact ⟨rfl, rfl⟩

/-- C7 (as stated) fails for `gestaoService.save`: the update throws an error
with message "unavailable", the create of the fallback goes through, and the
operation returns `{ success: true }`, not the failure envelope. -/
theorem save_swallows_update_error_counterexample :
    (gestaoService.save ⟨[], [], []⟩ "projetos" (.arr ["P1"]) (Reply.throwing "unavailable")
        (Reply.fine "k3" 5)).1 ≠ Envelope.failure "unavailable" ∧
    (gestaoService.save ⟨[], [], []⟩ "projetos" (.arr ["P1"]) (Reply.throwing "unavailable")
        (Reply.fine "k3" 5)).1 = { success := true } ∧
    (importExportService.importBatch ⟨[], [], []⟩ [([], Reply.throwing "unavailable")]).1 =
      { success := true, imported := some 0 } := by
  decide

/-! ## gestaoService.save -/

/-- The create fallback of `save` writes under the generated id: when no
document has the category as its id before, none has after, unless the
generated id happens to be the category name. -/
theorem save_leaves_no_category_document (db : Firestore) (type : String) (items : Value)
    (r rCreate : Reply) (h : db.gestao.any (fun d => d.id = type) = false)
    (hid : rCreate.autoId ≠ type) :
    (gestaoService.save db type items r rCreate).2.gestao.any (fun d => d.id = type) = false := by
  unfold gestaoService.save updateDoc addDoc
  cases r.fault with
  | some m =>
    cases rCreate.fault with
    | some m' => simpa using h
    | none =>
      simp only [Firestore.setColl, Firestore.coll, List.any_cons, List.any_filter]
      simp only [List.any_eq_false] at h ⊢
      simp only [Bool.or_eq_false_iff, decide_eq_false_iff_not]
      refine ⟨hid, ?_⟩
      rw [List.any_eq_false]
      intro d hd
      have := h d hd
      simp_all
  | none =>
    simp only [Firestore.coll, h, Bool.false_eq_true, if_false]
    cases rCreate.fault with
    | some m' => simpa using h
    | none =>
      simp only [Firestore.setColl, Firestore.coll, List.any_cons, List.any_filter]
      simp only [List.any_eq_false] at h ⊢
      simp only [Bool.or_eq_false_iff, decide_eq_false_iff_not]
      refine ⟨hid, ?_⟩
      rw [List.any_eq_false]
      intro d hd
      have := h d hd
      simp_all

/-- C6 (the code at the failing input): on an empty management collection,
`save("projetos", ["P1"])` finds no document, takes the create fallback and
succeeds; the document it creates has the generated id "k3Jx", not the id
"projetos"; a following `get()` returns `[]` under `projetos` and the items
under the generated id; a second `save` for the same category finds no
document again and leaves two documents of type `projetos`. -/
theorem save_fallback_misses_category_id :
    (gestaoService.save emptyStore "projetos" (.arr ["P1"]) (Reply.fine "" 5)
        (Reply.fine "k3Jx" 5)).1 = { success := true } ∧
    (gestaoService.save emptyStore "projetos" (.arr ["P1"]) (Reply.fine "" 5)
        (Reply.fine "k3Jx" 5)).2.gestao.map (fun d => d.id) = ["k3Jx"] ∧
    prop (gestaoService.get
        (gestaoService.save emptyStore "projetos" (.arr ["P1"]) (Reply.fine "" 5)
          (Reply.fine "k3Jx" 5)).2 (Reply.fine "" 6)).gestao "projetos" = some (.arr []) ∧
    prop (gestaoService.get
        (gestaoService.save emptyStore "projetos" (.arr ["P1"]) (Reply.fine "" 5)
          (Reply.fine "k3Jx" 5)).2 (Reply.fine "" 6)).gestao "k3Jx" = some (.arr ["P1"]) ∧
    (gestaoService.save
        (gestaoService.save emptyStore "projetos" (.arr ["P1"]) (Reply.fine "" 5)
          (Reply.fine "k3Jx" 5)).2
        "projetos" (.arr ["P1", "P2"]) (Reply.fine "" 7) (Reply.fine "Qm81" 7)).2.gestao.map
      (fun d => (d.id, prop d.data "type")) =
        [("Qm81", some (.str "projetos")), ("k3Jx", some (.str "projetos"))] := by
  decide

/-! ## The frequency tables -/

theorem own_put_self (t : Table) (k : String) (c : Cell) :
    Table.own (Table.put t k c) k = some c := by
  induction t with
  | nil => simp [Table.put, Table.own]
  | cons e rest ih =>
    obtain ⟨k', c'⟩ := e
    by_cases h : k' = k
    · simp [Table.put, Table.own, h]
    · simp [Table.put, Table.own, h, ih]

theorem own_put_other (t : Table) (k k' : String) (c : Cell) (h : k' ≠ k) :
    Table.own (Table.put t k c) k' = Table.own t k' := by
  induction t with
  | nil => simp [Table.put, Table.own, Ne.symm h]
  | cons e rest ih =>
    obtain ⟨k₀, c₀⟩ := e
    by_cases h₀ : k₀ = k
    · subst h₀
      simp [Table.put, Table.own, Ne.symm h]
    · by_cases h₁ : k₀ = k'
      · subst h₁
        simp [Table.put, Table.own, h₀]
      · simp [Table.put, Table.own, h₀, h₁, ih]

theorem own_bump_other (t : Table) (k k' : String) (h : k' ≠ k) :
    Table.own (Table.bump t k) k' = Table.own t k' := by
  unfold Table.bump
  split
  · exact own_put_other t k k' _ h
  · exact own_put_other t k k' _ h
  · split
    · rfl
    · split <;> exact own_put_other t k k' _ h

/-- A key that no table inherits is counted: its own property goes from the
count `n` to the count `n + 1`. -/
theorem own_bump_self (t : Table) (k : String) (n : Nat) (hk : k ∉ inheritedNames)
    (h : Table.own t k = countCell n) :
    Table.own (Table.bump t k) k = countCell (n + 1) := by
  have hp : k ≠ "__proto__" := fun e => hk (by simp [inheritedNames, e])
  have hm : k ∉ inheritedMethods := fun e => hk (by simp [inheritedNames, e])
  unfold Table.bump
  by_cases hn : n = 0
  · subst hn
    simp only [countCell, if_true] at h
    simp [h, hp, hm, own_put_self, countCell]
  · simp only [countCell, hn, if_false] at h
    simp [h, own_put_self, countCell]

theorem own_foldl_bump (keys : List String) (t : Table) (k : String) (n : Nat)
    (hk : k ∉ inheritedNames) (h : Table.own t k = countCell n) :
    Table.own (keys.foldl Table.bump t) k = countCell (n + keys.count k) := by
  induction keys generalizing t n with
  | nil => simpa using h
  | cons a rest ih =>
    simp only [List.foldl_cons]
    by_cases ha : a = k
    · subst ha
      rw [ih (Table.bump t a) (n + 1) (own_bump_self t a n hk h)]
      simp [List.count_cons_self]
      congr 1
      omega
    · rw [ih (Table.bump t a) n (by rw [own_bump_other t a k (Ne.symm ha)]; exact h)]
      simp [List.count_cons_of_ne (Ne.symm ha)]

theorem keyOf_eq_iff (f sentinel k : String) (rec : Obj) :
    (keyOf f sentinel rec = k) ↔
      (holdsKey f k rec = true ∧ truthy (prop rec f) = true) ∨
      (k = sentinel ∧ truthy (prop rec f) = false) := by
  unfold keyOf jsOr holdsKey truthy
  cases prop rec f with
  | none => simp [Value.toPropertyKey, eq_comm]
  | some v =>
    by_cases hv : v.truthy = true
    · simp [hv]
    · simp [hv, Value.toPropertyKey, eq_comm]

theorem count_keyOf (f sentinel k : String) (data : List Obj) :
    (data.map (keyOf f sentinel)).count k = expectedCount f sentinel k data := by
  unfold expectedCount
  induction data with
  | nil => simp
  | cons a rest ih =>
    have hiff := keyOf_eq_iff f sentinel k a
    simp only [List.map_cons, List.count_cons, List.countP_cons, ih, beq_iff_eq]
    by_cases ht : truthy (prop a f) = true
    · by_cases hh : holdsKey f k a = true
      · have : keyOf f sentinel a = k := hiff.mpr (Or.inl ⟨hh, ht⟩)
        simp [this, hh, ht]
        split <;> omega
      · have : ¬ keyOf f sentinel a = k := by
          intro e
          rcases hiff.mp e with h | h
          · exact hh h.1
          · simp [ht] at h
        simp [this, hh, ht]
    · have hh : holdsKey f k a = false := by
        unfold holdsKey truthy at *
        cases hp : prop a f with
        | none => rfl
        | some v => simp [hp] at ht; simp [ht]
      by_cases hk : k = sentinel
      · have : keyOf f sentinel a = k := hiff.mpr (Or.inr ⟨hk, by simpa using ht⟩)
        subst hk
        simp [this, hh, ht]
        omega
      · have : ¬ keyOf f sentinel a = k := by
          intro e
          rcases hiff.mp e with h | h
          · exact ht h.2
          · exact hk h.1
        simp [this, hh, hk]

/-- The own property of a key no table inherits, after the pass of `getStats`
over the records. -/
theorem own_computeStats (data : List Obj) (k : String) (hk : k ∉ inheritedNames) :
    Table.own (computeStats data).porStatus k =
        countCell (expectedCount "status" "Não definido" k data) ∧
    Table.own (computeStats data).porCidade k =
        countCell (expectedCount "cidade" "Não definida" k data) ∧
    Table.own (computeStats data).porProjeto k =
        countCell (expectedCount "projeto" "Não definido" k data) := by
  have ht := foldl_tally_tables data
    { total := data.length, porStatus := [], porCidade := [], porProjeto := [],
      recentes := data.take 10 }
  unfold computeStats
  rw [ht.1, ht.2.1, ht.2.2]
  refine ⟨?_, ?_, ?_⟩ <;>
  · rw [own_foldl_bump _ [] k 0 hk rfl, count_keyOf]
    simp

/-- C9 (amended): when `getAll()` succeeds, `getStats()` succeeds and, for
every key k that is not a name inherited from `Object.prototype`, each table
holds under k the number of records whose field (status, cidade, projeto) is
truthy and converts to the key k, plus, when k is the sentinel of the field
('Não definido' for status and projeto, 'Não definida' for cidade), the number
of records whose field is falsy (absent, `null`, `false` or the empty string);
a record whose field is the sentinel string itself is thus counted under the
sentinel too, and k is a key of the table only when that number is positive. -/
theorem getStats_tables_count (db : Firestore) (autoId : String) (now : Nat) (k : String)
    (hk : k ∉ inheritedNames) :
    ∃ s, statsService.getStats db (Reply.fine autoId now) =
        { success := true, data := some (.stats s) } ∧
      Table.own s.porStatus k = countCell (expectedCount "status" "Não definido" k
        (enderecosService.getAll db (Reply.fine autoId now)).records) ∧
      Table.own s.porCidade k = countCell (expectedCount "cidade" "Não definida" k
        (enderecosService.getAll db (Reply.fine autoId now)).records) ∧
      Table.own s.porProjeto k = countCell (expectedCount "projeto" "Não definido" k
        (enderecosService.getAll db (Reply.fine autoId now)).records) :=
  ⟨_, getStats_fine db autoId now, own_computeStats _ k hk⟩

theorem getStats_tables_count_witness :
    "Ativo" ∉ inheritedNames ∧
    ∃ s, statsService.getStats ativoStore (Reply.fine "" 0) =
        { success := true, data := some (.stats s) } ∧
      Table.own s.porStatus "Ativo" = countCell (expectedCount "status" "Não definido" "Ativo"
        (enderecosService.getAll ativoStore (Reply.fine "" 0)).records) ∧
      Table.own s.porCidade "Ativo" = countCell (expectedCount "cidade" "Não definida" "Ativo"
        (enderecosService.getAll ativoStore (Reply.fine "" 0)).records) ∧
      Table.own s.porProjeto "Ativo" = countCell (expectedCount "projeto" "Não definido" "Ativo"
        (enderecosService.getAll ativoStore (Reply.fine "" 0)).records) :=
  ⟨by decide, getStats_tables_count ativoStore "" 0 "Ativo" (by decide)⟩

/-- C9 (as stated) fails: of two records, one with the status 'Não definido'
and one with the empty status, none lacks the field, yet the sentinel entry of
`porStatus` is 2; and one record has the empty string as status, yet
`porStatus` has no entry for the empty string. -/
theorem sentinel_entry_counterexample :
    (statsService.getStats sentinelStore (Reply.fine "" 0)).stats.map
        (fun s => Table.own s.porStatus "Não definido") = some (some (.count 2)) ∧
    claimedCount "status" "Não definido" "Não definido"
        (enderecosService.getAll sentinelStore (Reply.fine "" 0)).records = 0 ∧
    (statsService.getStats sentinelStore (Reply.fine "" 0)).stats.map
        (fun s => Table.own s.porStatus "") = some none ∧
    claimedCount "status" "Não definido" ""
        (enderecosService.getAll sentinelStore (Reply.fine "" 0)).records = 1 := by
  decide

/-! ## The sums of the frequency tables -/

theorem numericSum_put_new (t : Table) (k : String) (h : Table.own t k = none) :
    Table.numericSum (Table.put t k (.count 1)) = (Table.numericSum t).map (fun s => s + 1) := by
  induction t with
  | nil => simp [Table.put, Table.numericSum]
  | cons e rest ih =>
    obtain ⟨k', c'⟩ := e
    by_cases hk : k' = k
    · simp [Table.own, hk] at h
    · simp only [Table.own, hk, if_false] at h
      cases c' with
      | count n =>
        simp only [Table.put, hk, if_false, Table.numericSum, ih h, Option.map_map]
        congr 1
      | text m j => simp [Table.put, hk, Table.numericSum]

theorem numericSum_put_count (t : Table) (k : String) (n : Nat)
    (h : Table.own t k = some (.count n)) :
    Table.numericSum (Table.put t k (.count (n + 1))) =
      (Table.numericSum t).map (fun s => s + 1) := by
  induction t with
  | nil => simp [Table.own] at h
  | cons e rest ih =>
    obtain ⟨k', c'⟩ := e
    by_cases hk : k' = k
    · simp only [Table.own, hk, if_true, Option.some.injEq] at h
      subst h
      simp only [Table.put, hk, if_true, Table.numericSum, Option.map_map]
      congr 1
      funext s
      simp only [Function.comp]
      omega
    · simp only [Table.own, hk, if_false] at h
      cases c' with
      | count n' =>
        simp only [Table.put, hk, if_false, Table.numericSum, ih h, Option.map_map]
        congr 1
      | text m j => simp [Table.put, hk, Table.numericSum]

theorem numericSum_put_text (t : Table) (k m m' : String) (j j' : Nat)
    (h : Table.own t k = some (.text m j)) :
    Table.numericSum (Table.put t k (.text m' j')) = none ∧ Table.numericSum t = none := by
  induction t with
  | nil => simp [Table.own] at h
  | cons e rest ih =>
    obtain ⟨k', c'⟩ := e
    by_cases hk : k' = k
    · simp only [Table.own, hk, if_true, Option.some.injEq] at h
      subst h
      simp [Table.put, hk, Table.numericSum]
    · simp only [Table.own, hk, if_false] at h
      cases c' with
      | count n' => simp [Table.put, hk, Table.numericSum, ih h]
      | text m₀ j₀ => simp [Table.put, hk, Table.numericSum]

/-- Counting a key that no table inherits adds one to the sum of the table. -/
theorem numericSum_bump (t : Table) (k : String) (hk : k ∉ inheritedNames) :
    Table.numericSum (Table.bump t k) = (Table.numericSum t).map (fun s => s + 1) := by
  have hp : k ≠ "__proto__" := fun e => hk (by simp [inheritedNames, e])
  have hm : k ∉ inheritedMethods := fun e => hk (by simp [inheritedNames, e])
  unfold Table.bump
  cases h : Table.own t k with
  | none => simp [hp, hm, numericSum_put_new t k h]
  | some c =>
    cases c with
    | count n => simp [numericSum_put_count t k n h]
    | text m j =>
      have := numericSum_put_text t k m m j (j + 1) h
      simp [this.1, this.2]

theorem numericSum_foldl_bump (keys : List String) (t : Table)
    (hk : ∀ k ∈ keys, k ∉ inheritedNames) :
    Table.numericSum (keys.foldl Table.bump t) =
      (Table.numericSum t).map (fun s => s + keys.length) := by
  induction keys generalizing t with
  | nil => simp
  | cons a rest ih =>
    rw [List.foldl_cons, ih _ (fun k h => hk k (List.mem_cons_of_mem _ h)),
      numericSum_bump t a (hk a (List.mem_cons_self _ _)), Option.map_map]
    congr 1
    funext s
    simp only [Function.comp, List.length_cons]
    omega

/-- The three tables sum to the number of records when no record is counted
under a name inherited from `Object.prototype`. -/
theorem computeStats_sums (data : List Obj)
    (h : ∀ rec ∈ data, keyOf "status" "Não definido" rec ∉ inheritedNames ∧
      keyOf "cidade" "Não definida" rec ∉ inheritedNames ∧
      keyOf "projeto" "Não definido" rec ∉ inheritedNames) :
    (computeStats data).total = data.length ∧
    Table.numericSum (computeStats data).porStatus = some data.length ∧
    Table.numericSum (computeStats data).porCidade = some data.length ∧
    Table.numericSum (computeStats data).porProjeto = some data.length := by
  have ht := foldl_tally_tables data
    { total := data.length, porStatus := [], porCidade := [], porProjeto := [],
      recentes := data.take 10 }
  have h0 := foldl_tally_total data
    { total := data.length, porStatus := [], porCidade := [], porProjeto := [],
      recentes := data.take 10 }
  unfold computeStats
  rw [ht.1, ht.2.1, ht.2.2, h0.1]
  refine ⟨rfl, ?_, ?_, ?_⟩
  · rw [numericSum_foldl_bump]
    · simp [Table.numericSum]
    · intro k hk
      obtain ⟨rec, hrec, rfl⟩ := List.mem_map.mp hk
      exact (h rec hrec).1
  · rw [numericSum_foldl_bump]
    · simp [Table.numericSum]
    · intro k hk
      obtain ⟨rec, hrec, rfl⟩ := List.mem_map.mp hk
      exact (h rec hrec).2.1
  · rw [numericSum_foldl_bump]
    · simp [Table.numericSum]
    · intro k hk
      obtain ⟨rec, hrec, rfl⟩ := List.mem_map.mp hk
      exact (h rec hrec).2.2

/-- C2 (the code at the failing input): `getAll()` returns one record, whose
status is "__proto__" and whose project is "constructor"; `getStats()` succeeds
with total 1, but `porStatus` has no entry at all (its values sum to 0) and the
entry of `porProjeto` is a string, not the number 1; only `porCidade` sums to 1. -/
theorem getStats_inherited_key_tables :
    (enderecosService.getAll inheritedKeyStore (Reply.fine "" 0)).records.length = 1 ∧
    (statsService.getStats inheritedKeyStore (Reply.fine "" 0)).stats.map
        (fun s => (s.total, s.porStatus, s.porCidade, s.porProjeto)) =
      some (1, [], [("Recife", .count 1)], [("constructor", .text "constructor" 1)]) ∧
    (statsService.getStats inheritedKeyStore (Reply.fine "" 0)).stats.map
        (fun s => (Table.numericSum s.porStatus, Table.numericSum s.porCidade,
          Table.numericSum s.porProjeto)) = some (some 0, some 1, none) :=
  ⟨by decide, rfl, rfl⟩

/-! ## add followed by getAll -/

theorem prop_append (a b : Obj) (k : String) :
    prop (a ++ b) k = (match prop b k with
      | some w => some w
      | none => prop a k) := by
  induction a with
  | nil => cases h : prop b k <;> simp [prop, h]
  | cons e rest ih =>
    obtain ⟨k', v⟩ := e
    have hc : prop ((k', v) :: rest ++ b) k = (match prop (rest ++ b) k with
        | some w => some w
        | none => if k' = k then some v else none) := rfl
    rw [hc, ih]
    cases prop b k with
    | some w => rfl
    | none => rfl

/-- A document that comes no later than one created at server time `now`, in
the order of `getAll`, was not created at an earlier server time. -/
theorem time_le_of_descBefore (x d : Doc) (t now : Nat)
    (hx : prop x.data "createdAt" = some (.time t))
    (hd : prop d.data "createdAt" = some (.time now))
    (h : descBefore "createdAt" x d = true) : now ≤ t := by
  unfold descBefore Doc.orderKey at h
  simp only [hx, hd, Option.getD_some, Value.sortKey, decide_eq_true_eq] at h
  rw [Prod.Lex.le_iff] at h
  simp only [Prod.Lex.lt_iff, Prod.Lex.le_iff] at h
  simp at h
  rcases h with h | ⟨h, _⟩
  · cases h with
    | rel h' =>
      cases h' with
      | rel h'' => exact Nat.le_of_lt h''
      | cons h'' => cases h''
    | cons h' => cases h'
  · exact Nat.le_of_eq h

/-- The fields of the document `add` writes. -/
theorem prop_add_payload (endereco : Obj) (ts : Value) (k : String) :
    prop (endereco ++ [("createdAt", ts), ("updatedAt", ts)]) k =
      if k = "updatedAt" then some ts
      else if k = "createdAt" then some ts
      else prop endereco k := by
  rw [prop_append]
  by_cases hu : k = "updatedAt"
  · subst hu
    simp [prop]
  · by_cases hc : k = "createdAt"
    · subst hc
      simp [prop]
    · simp [prop, hu, hc, Ne.symm hu, Ne.symm hc, eq_comm]

theorem add_fine (db : Firestore) (endereco : Obj) (autoId : String) (now : Nat) :
    enderecosService.add db endereco (Reply.fine autoId now) =
      ({ success := true, id := some autoId },
       { db with enderecos :=
          ⟨autoId, endereco ++ [("createdAt", .time now), ("updatedAt", .time now)]⟩ ::
            db.enderecos.filter (fun d => d.id ≠ autoId) }) := by
  simp [enderecosService.add, addDoc, Reply.fine, serverTimestamp, Firestore.setColl,
    Firestore.coll]

/-- C5 (amended): when `add(A)` goes through it returns the generated id, and
the `getAll()` that follows includes a record that has every field of A other
than `id`, `createdAt` and `updatedAt` with A's value, whose `createdAt` and
`updatedAt` are the server time of the add (whatever A gave for them), and
whose `id` is the generated id when A has no field `id`; every record whose
`createdAt` is an earlier server time comes after that record. -/
theorem add_then_getAll (db : Firestore) (endereco : Obj) (autoId autoId' : String)
    (now now' : Nat) :
    (enderecosService.add db endereco (Reply.fine autoId now)).1 =
      { success := true, id := some autoId } ∧
    ∃ pre post rec,
      (enderecosService.getAll (enderecosService.add db endereco (Reply.fine autoId now)).2
        (Reply.fine autoId' now')).records = pre ++ rec :: post ∧
      (∀ k v, prop endereco k = some v → k ≠ "id" → k ≠ "createdAt" → k ≠ "updatedAt" →
        prop rec k = some v) ∧
      (prop endereco "id" = none → prop rec "id" = some (.str autoId)) ∧
      prop rec "createdAt" = some (.time now) ∧
      prop rec "updatedAt" = some (.time now) ∧
      (∀ r ∈ pre ++ rec :: post, ∀ t, prop r "createdAt" = some (.time t) → t < now →
        r ∈ post ∧ r ∉ pre) := by
  rw [add_fine]
  refine ⟨rfl, ?_⟩
  simp only [getAll_fine, Envelope.records]
  generalize hd : (⟨autoId, endereco ++ [("createdAt", .time now), ("updatedAt", .time now)]⟩ :
    Doc) = d
  have hdata : d.data = endereco ++ [("createdAt", .time now), ("updatedAt", .time now)] := by
    rw [← hd]
  have hid : d.id = autoId := by rw [← hd]
  have hcre : prop d.data "createdAt" = some (.time now) := by
    rw [hdata, prop_add_payload]
    simp
  have hmem : d ∈ sortDocs (descBefore "createdAt")
      ((d :: db.enderecos.filter (fun d => d.id ≠ autoId)).filter
        (fun d => (prop d.data "createdAt").isSome)) := by
    rw [mem_sortDocs, List.mem_filter]
    exact ⟨List.mem_cons_self _ _, by simp [hcre]⟩
  have hsorted := sortedBy_sortDocs (descBefore "createdAt") (descBefore_total _)
    (descBefore_trans _)
    ((d :: db.enderecos.filter (fun d => d.id ≠ autoId)).filter
      (fun d => (prop d.data "createdAt").isSome))
  obtain ⟨pre, post, hsplit⟩ := List.append_of_mem hmem
  rw [hsplit] at hsorted ⊢
  have hpre : ∀ x ∈ pre, descBefore "createdAt" x d = true := by
    intro x hx
    exact (List.pairwise_append.mp hsorted).2.2 x hx d (List.mem_cons_self _ _)
  have hrecC : prop (toRecord d) "createdAt" = some (.time now) := by
    rw [prop_toRecord d _ (by decide)]
    exact hcre
  refine ⟨pre.map toRecord, post.map toRecord, toRecord d, by simp, ?_, ?_, hrecC, ?_, ?_⟩
  · intro k v hv h1 h2 h3
    rw [prop_toRecord d k h1, hdata, prop_add_payload]
    simp [h2, h3, hv]
  · intro hnone
    have : prop d.data "id" = none := by
      rw [hdata, prop_add_payload]
      simpa using hnone
    simp [toRecord, prop, this, hid]
  · rw [prop_toRecord d _ (by decide), hdata, prop_add_payload]
    simp
  · intro r hr t ht hlt
    have hnpre : r ∉ pre.map toRecord := by
      intro hin
      obtain ⟨x, hx, rfl⟩ := List.mem_map.mp hin
      rw [prop_toRecord x _ (by decide)] at ht
      have := time_le_of_descBefore x d t now ht hcre (hpre x hx)
      omega
    refine ⟨?_, hnpre⟩
    rcases List.mem_append.mp hr with h | h
    · exact absurd h hnpre
    · rcases List.mem_cons.mp h with h | h
      · subst h
        rw [hrecC] at ht
        injection ht with ht
        injection ht with ht
        omega
      · exact h

/-- C5 (as stated) fails: for the record `{ createdAt: "ontem" }` the record
that `getAll()` returns after the add has the server time as `createdAt`, not
the value of A; and for the record `{ id: "mine" }` the `id` of the record
returned is "mine", not the generated id "k3Jx". -/
theorem add_reserved_fields_counterexample :
    (enderecosService.add emptyStore [("createdAt", .str "ontem")] (Reply.fine "k3Jx" 5)).1 =
      { success := true, id := some "k3Jx" } ∧
    (enderecosService.getAll
        (enderecosService.add emptyStore [("createdAt", .str "ontem")] (Reply.fine "k3Jx" 5)).2
        (Reply.fine "" 6)).records.map (fun rec => prop rec "createdAt") = [some (.time 5)] ∧
    (enderecosService.add emptyStore [("id", .str "mine")] (Reply.fine "k3Jx" 5)).1 =
      { success := true, id := some "k3Jx" } ∧
    (enderecosService.getAll
        (enderecosService.add emptyStore [("id", .str "mine")] (Reply.fine "k3Jx" 5)).2
        (Reply.fine "" 6)).records.map (fun rec => prop rec "id") = [some (.str "mine")] := by
  decide

end Mdu
